import Mathlib

/-!
Verification of the RAG document pipeline (`rag_system.py`) of the
AI_Local_Chat_PDF repository: a shallow embedding of the chunker,
the ingestion pipeline, the vector-store operations and the retrieval
facade, together with theorems settling the specification claims.
-/

namespace RAG

/-! ## Definitions: the shallow embedding of `rag_system.py` -/

def pySplit (text : String) : List String :=
  ((text.toList.splitOnP Char.isWhitespace).filter (fun w => w ≠ [])).map
    (fun w => String.mk w)

def pySliceLast (l : List String) (k : Nat) : List String :=
  if k = 0 then l else l.drop (l.length - k)

def interiorFloor (chunk_size : Nat) : Nat := max 20 (chunk_size / 5)

def pyStrip (s : String) : String :=
  String.mk (((s.toList.dropWhile Char.isWhitespace).reverse.dropWhile
    Char.isWhitespace).reverse)

def joinChunk (cur : List String) : String := pyStrip (String.intercalate " " cur)

def chunkLoop (cs ov : Nat) (chunks : List String) (cur : List String) :
    List String → List String × List String
  | [] => (chunks, cur)
  | w :: rest =>
    if cs ≤ (cur ++ [w]).length then
      chunkLoop cs ov
        (if interiorFloor cs ≤ (joinChunk (cur ++ [w])).length
          then chunks ++ [joinChunk (cur ++ [w])] else chunks)
        (pySliceLast (cur ++ [w]) ov) rest
    else
      chunkLoop cs ov chunks (cur ++ [w]) rest

def split_text_into_chunks (cs ov : Nat) (text : String) : List String :=
  if pySplit text = [] then []
  else
    if (chunkLoop cs ov [] [] (pySplit text)).2 ≠ [] ∧
        20 ≤ (joinChunk (chunkLoop cs ov [] [] (pySplit text)).2).length then
      (chunkLoop cs ov [] [] (pySplit text)).1 ++
        [joinChunk (chunkLoop cs ov [] [] (pySplit text)).2]
    else
      (chunkLoop cs ov [] [] (pySplit text)).1

def chunkLoopW (cs ov : Nat) (acc : List (List String)) (cur : List String) :
    List String → List (List String) × List String
  | [] => (acc, cur)
  | w :: rest =>
    if cs ≤ (cur ++ [w]).length then
      chunkLoopW cs ov
        (if interiorFloor cs ≤ (joinChunk (cur ++ [w])).length
          then acc ++ [cur ++ [w]] else acc)
        (pySliceLast (cur ++ [w]) ov) rest
    else
      chunkLoopW cs ov acc (cur ++ [w]) rest

def chunksWords (cs ov : Nat) (ws : List String) : List (List String) :=
  if (chunkLoopW cs ov [] [] ws).2 ≠ [] ∧
      20 ≤ (joinChunk (chunkLoopW cs ov [] [] ws).2).length then
    (chunkLoopW cs ov [] [] ws).1 ++ [(chunkLoopW cs ov [] [] ws).2]
  else
    (chunkLoopW cs ov [] [] ws).1

def candLoop (cs ov : Nat) (acc : List (List String)) (cur : List String) :
    List String → List (List String) × List String
  | [] => (acc, cur)
  | w :: rest =>
    if cs ≤ (cur ++ [w]).length then
      candLoop cs ov (acc ++ [cur ++ [w]]) (pySliceLast (cur ++ [w]) ov) rest
    else
      candLoop cs ov acc (cur ++ [w]) rest

def chunkCands (cs ov : Nat) (ws : List String) : List (List String) :=
  if (candLoop cs ov [] [] ws).2 = [] then (candLoop cs ov [] [] ws).1
  else (candLoop cs ov [] [] ws).1 ++ [(candLoop cs ov [] [] ws).2]

def specCands (cs ov : Nat) (ws : List String) : List (List String) :=
  if h : ws.length < cs ∨ cs ≤ ov then (if ws = [] then [] else [ws])
  else ws.take cs :: specCands cs ov (ws.drop (cs - ov))
termination_by ws.length
decreasing_by
  push_neg at h
  simp only [List.length_drop]
  omega

def numInterior (cs ov n : Nat) : Nat :=
  if n < cs then 0 else (n - cs) / (cs - ov) + 1

def reconChunks (ov : Nat) : List (List String) → List String
  | [] => []
  | c :: rest => c ++ (rest.map (fun d => d.drop ov)).flatten

def passFloor (cs : Nat) (c : List String) : Bool :=
  interiorFloor cs ≤ (joinChunk c).length

def specTrailing (l : List String) (k : Nat) : List String := l.drop (l.length - k)

def spec_chunkLoop (cs ov : Nat) (chunks : List String) (cur : List String) :
    List String → List String × List String
  | [] => (chunks, cur)
  | w :: rest =>
    if cs ≤ (cur ++ [w]).length then
      spec_chunkLoop cs ov
        (if interiorFloor cs ≤ (joinChunk (cur ++ [w])).length
          then chunks ++ [joinChunk (cur ++ [w])] else chunks)
        (specTrailing (cur ++ [w]) ov) rest
    else
      spec_chunkLoop cs ov chunks (cur ++ [w]) rest

def spec_split (cs ov : Nat) (text : String) : List String :=
  if pySplit text = [] then []
  else
    if (spec_chunkLoop cs ov [] [] (pySplit text)).2 ≠ [] ∧
        20 ≤ (joinChunk (spec_chunkLoop cs ov [] [] (pySplit text)).2).length then
      (spec_chunkLoop cs ov [] [] (pySplit text)).1 ++
        [joinChunk (spec_chunkLoop cs ov [] [] (pySplit text)).2]
    else
      (spec_chunkLoop cs ov [] [] (pySplit text)).1

structure ChunkState where
  remaining : List String
  buffer : List String
  chunks : List String
deriving DecidableEq

def chunkStep (cs ov : Nat) (s : ChunkState) : Option ChunkState :=
  match s.remaining with
  | [] => none
  | w :: rest =>
    if cs ≤ (s.buffer ++ [w]).length then
      some ⟨rest, pySliceLast (s.buffer ++ [w]) ov,
        if interiorFloor cs ≤ (joinChunk (s.buffer ++ [w])).length
          then s.chunks ++ [joinChunk (s.buffer ++ [w])] else s.chunks⟩
    else
      some ⟨rest, s.buffer ++ [w], s.chunks⟩

def runChunk (cs ov : Nat) : Nat → ChunkState → ChunkState
  | 0, s => s
  | n + 1, s =>
    match chunkStep cs ov s with
    | none => s
    | some s' => runChunk cs ov n s'

def finishChunks (s : ChunkState) : List String :=
  if s.buffer ≠ [] ∧ 20 ≤ (joinChunk s.buffer).length then
    s.chunks ++ [joinChunk s.buffer]
  else s.chunks

structure ExtractEnv where
  primary : Except String String
  pdf2imageAvailable : Bool
  pytesseractAvailable : Bool
  ocr : Except String String

def ocrAttempted (env : ExtractEnv) : Bool :=
  match env.primary with
  | .error _ => false
  | .ok text => if text ≠ "" ∧ pyStrip text ≠ "" then false else true

def extract_text_from_pdf (env : ExtractEnv) : Except String String :=
  match env.primary with
  | .error e => .error e
  | .ok text =>
    if text ≠ "" ∧ pyStrip text ≠ "" then .ok text
    else if env.pdf2imageAvailable = false then .ok ""
    else if env.pytesseractAvailable = false then .ok ""
    else
      match env.ocr with
      | .error e => .error e
      | .ok ocr_text =>
        if ocr_text ≠ "" ∧ pyStrip ocr_text ≠ "" then .ok ocr_text else .ok ""

structure AddCall (V : Type) where
  embeddings : List V
  documents : List String
  metadatas : List (List (String × String))
  ids : List String
deriving DecidableEq

def baseMeta (metadata : Option (List (String × String)))
    (document_id pdf_path : String) : List (String × String) :=
  match metadata with
  | none => [("source", pdf_path), ("document_id", document_id)]
  | some m =>
    if m = [] then [("source", pdf_path), ("document_id", document_id)] else m

def add_document (V : Type) (extractRes : Except String String)
    (encode : List String → List V) (cs ov : Nat)
    (document_id pdf_path : String) (metadata : Option (List (String × String))) :
    Except String (AddCall V) :=
  match extractRes with
  | .error e => .error e
  | .ok text =>
    if text = "" ∨ pyStrip text = "" then .error "No extractable text found in PDF"
    else if split_text_into_chunks cs ov text = [] then
      .error "No textual content to index from PDF"
    else if (encode (split_text_into_chunks cs ov text)).length = 0 then
      .error "Embedding model returned no vectors for chunks"
    else if (encode (split_text_into_chunks cs ov text)).isEmpty ∨
        (encode (split_text_into_chunks cs ov text)).length ≠
          (split_text_into_chunks cs ov text).length then
      .error "Embeddings/chunks length mismatch"
    else
      .ok ⟨encode (split_text_into_chunks cs ov text),
           split_text_into_chunks cs ov text,
           (split_text_into_chunks cs ov text).map
             (fun _ => baseMeta metadata document_id pdf_path),
           (List.range (split_text_into_chunks cs ov text).length).map
             (fun i => document_id ++ "_" ++ toString i)⟩

def add_pdf_document (V : Type) (pathExists : Bool)
    (extractRes : Except String String) (encode : List String → List V)
    (cs ov : Nat) (document_id pdf_path : String)
    (metadata : Option (List (String × String))) : Except String (AddCall V) :=
  if pathExists = false then .error ("PDF file not found: " ++ pdf_path)
  else add_document V extractRes encode cs ov document_id pdf_path metadata

structure ChunkRecord (V : Type) where
  rid : String
  embedding : V
  document : String
  metadata : List (String × String)
deriving DecidableEq

abbrev Collection (V : Type) := List (ChunkRecord V)

def recordsOfCall (V : Type) (call : AddCall V) : List (ChunkRecord V) :=
  ((call.ids.zip call.embeddings).zip (call.documents.zip call.metadatas)).map
    (fun p => ⟨p.1.1, p.1.2, p.2.1, p.2.2⟩)

def collAdd (V : Type) (st : Collection V) (call : AddCall V) : Collection V :=
  st ++ recordsOfCall V call

def runIngest (V : Type) (st : Collection V) (pathExists : Bool)
    (extractRes : Except String String) (encode : List String → List V)
    (cs ov : Nat) (document_id pdf_path : String)
    (metadata : Option (List (String × String))) : Collection V × Option String :=
  match add_pdf_document V pathExists extractRes encode cs ov document_id pdf_path metadata with
  | .error e => (st, some e)
  | .ok call => (collAdd V st call, none)

def metaGet (m : List (String × String)) (k : String) : Option String :=
  (m.find? (fun p => p.1 = k)).map (fun p => p.2)

def matchedIds (V : Type) (st : Collection V) (document_id : String) : List String :=
  (st.filter (fun r => metaGet r.metadata "document_id" = some document_id)).map
    (fun r => r.rid)

def delete_document (V : Type) (st : Collection V) (document_id : String) :
    Collection V :=
  if matchedIds V st document_id = [] then st
  else st.filter (fun r => ¬ r.rid ∈ matchedIds V st document_id)

def collCount (V : Type) (st : Collection V) : Nat := st.length

def get_document_count (countRes : Except String Nat) : Nat :=
  match countRes with
  | .ok n => n
  | .error _ => 0

structure DocSummary where
  document_id : String
  source : String
  chunks : Nat
deriving DecidableEq

def bumpDoc : List DocSummary → String → String → List DocSummary
  | [], did, src => [⟨did, src, 1⟩]
  | d :: ds, did, src =>
    if d.document_id = did then ⟨d.document_id, d.source, d.chunks + 1⟩ :: ds
    else d :: bumpDoc ds did src

def groupDocs (metadatas : List (List (String × String))) : List DocSummary :=
  metadatas.foldl
    (fun acc m =>
      bumpDoc acc ((metaGet m "document_id").getD "unknown")
        ((metaGet m "source").getD "unknown")) []

def list_documents (res : Except String (Option (List (List (String × String))))) :
    List DocSummary :=
  match res with
  | .error _ => []
  | .ok none => []
  | .ok (some metadatas) => groupDocs metadatas

structure QueryResult (D : Type) where
  documents : Option (List (List String))
  distances : Option (List (List D))
  metadatas : Option (List (List (Option (List (String × String)))))

def processQuery (D : Type) (queryRes : Except String (QueryResult D)) :
    List (String × D × List (String × String)) :=
  match queryRes with
  | .error _ => []
  | .ok results =>
    match results.documents with
    | none => []
    | some [] => []
    | some (docs0 :: _) =>
      match results.distances with
      | none => []
      | some [] => []
      | some (dists0 :: _) =>
        match results.metadatas with
        | none => []
        | some [] => []
        | some (metas0 :: _) =>
          (docs0.zip (dists0.zip metas0)).map
            (fun p => (p.1, p.2.1, (p.2.2).getD []))

def effectiveK (n_results : Option Nat) (configK : Nat) : Nat :=
  match n_results with
  | none => configK
  | some k => if k = 0 then configK else k

def search_similar_documents (D : Type)
    (query : Nat → Except String (QueryResult D)) (configK : Nat)
    (n_results : Option Nat) : List (String × D × List (String × String)) :=
  processQuery D (query (effectiveK n_results configK))

def contextBlock (D : Type) (fmtD : D → String)
    (hit : String × D × List (String × String)) : List String :=
  ["Document: " ++ ((metaGet hit.2.2 "source").getD "Unknown"),
   "Relevance: " ++ fmtD hit.2.1,
   "Content: " ++ hit.1,
   String.mk (List.replicate 50 '-')]

def retrieve_relevant_context (D : Type) (fmtD : D → String)
    (query : Nat → Except String (QueryResult D)) (configK : Nat)
    (n_results : Option Nat) : String :=
  if (search_similar_documents D query configK n_results).isEmpty then ""
  else
    String.intercalate "\n"
      ((search_similar_documents D query configK n_results).map
        (contextBlock D fmtD)).flatten

def oneHitQuery : Nat → Except String (QueryResult Nat) := fun k =>
  if k = 0 then .ok ⟨some [], none, none⟩
  else .ok ⟨some [["c"]], some [[3]], some [[some [("source", "s")]]]⟩

def c7Call : AddCall Nat :=
  ⟨[0], ["aaaaaaaaaaaaaaaaaaaaaaaaa"],
   [[("source", "p.pdf"), ("document_id", "A")]], ["A_0"]⟩

def c10Call : AddCall Nat :=
  ⟨[0], ["aaaaaaaaaaaaaaaaaaaaaaaaa"], [[("k", "v")]], ["A_0"]⟩

/-! ## Theorems -/

theorem pySliceLast_of_pos (l : List String) (k : Nat) (hk : k ≠ 0) :
    pySliceLast l k = l.drop (l.length - k) := by
  simp [pySliceLast, hk]

theorem candLoop_acc (cs ov : Nat) :
    ∀ (rest : List String) (acc : List (List String)) (cur : List String),
      candLoop cs ov acc cur rest =
        (acc ++ (candLoop cs ov [] cur rest).1, (candLoop cs ov [] cur rest).2) := by
  intro rest
  induction rest with
  | nil => intro acc cur; simp [candLoop]
  | cons w rest ih =>
    intro acc cur
    simp only [candLoop]
    by_cases h : cs ≤ (cur ++ [w]).length
    · rw [if_pos h, if_pos h, ih (acc ++ [cur ++ [w]]), ih ([] ++ [cur ++ [w]])]
      simp
    · rw [if_neg h, if_neg h]
      exact ih acc (cur ++ [w])

theorem candLoop_fill (cs ov : Nat) :
    ∀ (pre : List String) (rest : List String) (acc : List (List String))
      (cur : List String), cur.length + pre.length < cs →
      candLoop cs ov acc cur (pre ++ rest) = candLoop cs ov acc (cur ++ pre) rest := by
  intro pre
  induction pre with
  | nil => intro rest acc cur _; simp
  | cons p pre ih =>
    intro rest acc cur h
    have hlen : (p :: pre).length = pre.length + 1 := by simp
    have hlt : ¬ cs ≤ (cur ++ [p]).length := by
      simp only [List.length_append, List.length_cons, List.length_nil] at *
      omega
    rw [List.cons_append]
    simp only [candLoop, if_neg hlt]
    rw [ih rest acc (cur ++ [p]) (by simp at h ⊢; omega)]
    simp

theorem candLoop_emit (cs ov : Nat) (acc : List (List String)) (cur : List String)
    (w : String) (rest : List String) (h : cur.length + 1 = cs) :
    candLoop cs ov acc cur (w :: rest) =
      candLoop cs ov (acc ++ [cur ++ [w]]) (pySliceLast (cur ++ [w]) ov) rest := by
  simp only [candLoop]
  rw [if_pos (by simp; omega)]

theorem chunkCands_eq_specCands (cs ov : Nat) (h1 : 1 ≤ ov) (h2 : ov < cs) :
    ∀ ws : List String, chunkCands cs ov ws = specCands cs ov ws := by
  have hstep : ∀ n : Nat, ∀ ws : List String, ws.length = n →
      chunkCands cs ov ws = specCands cs ov ws := by
    intro n
    induction n using Nat.strong_induction_on with
    | _ n ih =>
      intro ws hlen
      by_cases hsmall : ws.length < cs
      · -- the buffer never reaches chunk_size: everything is flushed
        have hfill := candLoop_fill cs ov ws [] [] [] (by simpa using hsmall)
        rw [specCands]
        rw [dif_pos (Or.inl hsmall)]
        unfold chunkCands
        rw [show ws ++ [] = ws from by simp] at hfill
        rw [show ([] : List String) ++ ws = ws from by simp] at hfill
        rw [hfill]
        simp only [candLoop]
        by_cases hnil : ws = []
        · simp [hnil]
        · simp [hnil]
      · -- the buffer reaches chunk_size once, then the loop restarts
        push_neg at hsmall
        obtain ⟨w, tl, hwtl⟩ : ∃ w tl, ws.drop (cs - 1) = w :: tl := by
          cases hh : ws.drop (cs - 1) with
          | nil =>
            exfalso
            rw [List.drop_eq_nil_iff] at hh
            omega
          | cons a b => exact ⟨a, b, rfl⟩
        have h9 : cs - 1 + 1 = cs := by omega
        have htl : tl = ws.drop cs := by
          have hta := congrArg List.tail hwtl
          rw [List.tail_drop, h9] at hta
          exact hta.symm
        have hdrop : ws.drop (cs - 1) = w :: ws.drop cs := by
          rw [hwtl, htl]
        have htake : ws.take (cs - 1) ++ [w] = ws.take cs := by
          conv_rhs => rw [← h9]
          rw [List.take_add, hdrop]
          simp
        have hlentake : (ws.take (cs - 1)).length = cs - 1 := by
          simp
          omega
        -- run the loop up to the first emission
        have e1 : candLoop cs ov [] [] ws =
            candLoop cs ov [] (ws.take (cs - 1)) (w :: ws.drop cs) := by
          conv_lhs => rw [(List.take_append_drop (cs - 1) ws).symm]
          rw [candLoop_fill cs ov (ws.take (cs - 1)) (ws.drop (cs - 1)) [] []
            (by simp; omega)]
          rw [List.nil_append, hdrop]
        have e2 : candLoop cs ov [] (ws.take (cs - 1)) (w :: ws.drop cs) =
            candLoop cs ov [ws.take cs] (pySliceLast (ws.take cs) ov) (ws.drop cs) := by
          rw [candLoop_emit cs ov [] (ws.take (cs - 1)) w (ws.drop cs)
            (by rw [hlentake]; omega)]
          rw [htake, List.nil_append]
        -- the sliced buffer is the head of the next window
        have hslice : pySliceLast (ws.take cs) ov = (ws.drop (cs - ov)).take ov := by
          rw [pySliceLast_of_pos _ _ (by omega)]
          rw [List.length_take]
          rw [show min cs ws.length = cs from by omega]
          rw [List.drop_take]
          congr 1
          omega
        have hrest : ws.drop cs = (ws.drop (cs - ov)).drop ov := by
          rw [List.drop_drop]
          congr 1
          omega
        have e3 : candLoop cs ov [] ((ws.drop (cs - ov)).take ov) ((ws.drop (cs - ov)).drop ov) =
            candLoop cs ov [] [] (ws.drop (cs - ov)) := by
          conv_rhs => rw [(List.take_append_drop ov (ws.drop (cs - ov))).symm]
          rw [candLoop_fill cs ov ((ws.drop (cs - ov)).take ov) ((ws.drop (cs - ov)).drop ov)
            [] [] (by simp; omega)]
          simp
        have e4 : candLoop cs ov [] [] ws =
            ([ws.take cs] ++ (candLoop cs ov [] [] (ws.drop (cs - ov))).1,
             (candLoop cs ov [] [] (ws.drop (cs - ov))).2) := by
          rw [e1, e2, hslice,
            candLoop_acc cs ov (ws.drop cs) [ws.take cs] ((ws.drop (cs - ov)).take ov)]
          rw [hrest, e3]
        -- assemble, using the induction hypothesis on the slid suffix
        have hlen' : (ws.drop (cs - ov)).length < n := by
          simp only [List.length_drop]
          omega
        have ihws : chunkCands cs ov (ws.drop (cs - ov)) = specCands cs ov (ws.drop (cs - ov)) :=
          ih (ws.drop (cs - ov)).length hlen' (ws.drop (cs - ov)) rfl
        rw [specCands, dif_neg (by push_neg; omega)]
        rw [← ihws]
        unfold chunkCands
        rw [e4]
        by_cases hc : (candLoop cs ov [] [] (ws.drop (cs - ov))).2 = []
        · simp [hc]
        · simp [hc]
  intro ws
  exact hstep ws.length ws rfl

theorem specCands_closed (cs ov : Nat) (h1 : 1 ≤ ov) (h2 : ov < cs) :
    ∀ ws : List String, ws ≠ [] →
      specCands cs ov ws =
        (List.range (numInterior cs ov ws.length)).map
          (fun i => (ws.drop (i * (cs - ov))).take cs) ++
        [ws.drop (numInterior cs ov ws.length * (cs - ov))] := by
  have hstep : ∀ n : Nat, ∀ ws : List String, ws.length = n → ws ≠ [] →
      specCands cs ov ws =
        (List.range (numInterior cs ov ws.length)).map
          (fun i => (ws.drop (i * (cs - ov))).take cs) ++
        [ws.drop (numInterior cs ov ws.length * (cs - ov))] := by
    intro n
    induction n using Nat.strong_induction_on with
    | _ n ih =>
      intro ws hlen hne
      by_cases hsmall : ws.length < cs
      · rw [specCands, dif_pos (Or.inl hsmall), if_neg hne]
        unfold numInterior
        rw [if_pos hsmall]
        simp
      · push_neg at hsmall
        have hk : numInterior cs ov ws.length =
            numInterior cs ov (ws.drop (cs - ov)).length + 1 := by
          unfold numInterior
          rw [if_neg (by omega)]
          simp only [List.length_drop]
          by_cases hsm : ws.length - (cs - ov) < cs
          · rw [if_pos hsm]
            have : ws.length - cs < cs - ov := by omega
            rw [Nat.div_eq_of_lt this]
          · rw [if_neg hsm]
            push_neg at hsm
            have hle : cs - ov ≤ ws.length - cs := by omega
            rw [Nat.div_eq_sub_div (by omega) hle]
            have : ws.length - (cs - ov) - cs = ws.length - cs - (cs - ov) := by omega
            rw [this]
        have hne' : ws.drop (cs - ov) ≠ [] := by
          have : (ws.drop (cs - ov)).length ≠ 0 := by
            simp only [List.length_drop]
            omega
          intro hcon
          rw [hcon] at this
          simp at this
        have ihws := ih (ws.drop (cs - ov)).length
          (by simp only [List.length_drop]; omega) (ws.drop (cs - ov)) rfl hne'
        rw [specCands, dif_neg (by push_neg; omega), ihws, hk]
        rw [List.range_succ_eq_map]
        simp only [List.map_cons, List.map_map, Nat.zero_mul, List.drop_zero,
          List.cons_append]
        have hshift : ∀ m : Nat, (ws.drop (cs - ov)).drop (m * (cs - ov)) =
            ws.drop ((m + 1) * (cs - ov)) := by
          intro m
          rw [List.drop_drop]
          congr 1
          ring
        rw [hshift]
        have hmap :
            List.map (fun i => List.take cs (List.drop (i * (cs - ov)) (ws.drop (cs - ov))))
              (List.range (numInterior cs ov (ws.drop (cs - ov)).length)) =
            List.map ((fun i => List.take cs (List.drop (i * (cs - ov)) ws)) ∘ Nat.succ)
              (List.range (numInterior cs ov (ws.drop (cs - ov)).length)) := by
          refine List.map_congr_left ?_
          intro i _
          simp only [Function.comp_apply, Nat.succ_eq_add_one]
          rw [hshift i]
        rw [hmap]
  intro ws
  exact hstep ws.length ws rfl

theorem specCands_drop_flatten (cs ov : Nat) (h1 : 1 ≤ ov) (h2 : ov < cs) :
    ∀ ws : List String, ws ≠ [] →
      ((specCands cs ov ws).map (fun d => d.drop ov)).flatten = ws.drop ov := by
  have hstep : ∀ n : Nat, ∀ ws : List String, ws.length = n → ws ≠ [] →
      ((specCands cs ov ws).map (fun d => d.drop ov)).flatten = ws.drop ov := by
    intro n
    induction n using Nat.strong_induction_on with
    | _ n ih =>
      intro ws hlen hne
      by_cases hsmall : ws.length < cs
      · rw [specCands, dif_pos (Or.inl hsmall), if_neg hne]
        simp
      · push_neg at hsmall
        have hne' : ws.drop (cs - ov) ≠ [] := by
          have hl : (ws.drop (cs - ov)).length ≠ 0 := by
            simp only [List.length_drop]
            omega
          intro hcon
          rw [hcon] at hl
          simp at hl
        have ihws := ih (ws.drop (cs - ov)).length
          (by simp only [List.length_drop]; omega) (ws.drop (cs - ov)) rfl hne'
        rw [specCands, dif_neg (by push_neg; omega)]
        simp only [List.map_cons, List.flatten_cons, ihws]
        rw [List.drop_take, List.drop_drop]
        have hsum : cs - ov + ov = cs := by omega
        rw [hsum]
        have : ws.drop cs = (ws.drop ov).drop (cs - ov) := by
          rw [List.drop_drop]
          congr 1
          omega
        rw [this, List.take_append_drop]
  intro ws
  exact hstep ws.length ws rfl

theorem recon_specCands (cs ov : Nat) (h1 : 1 ≤ ov) (h2 : ov < cs)
    (ws : List String) (hne : ws ≠ []) :
    reconChunks ov (specCands cs ov ws) = ws := by
  by_cases hsmall : ws.length < cs
  · rw [specCands, dif_pos (Or.inl hsmall), if_neg hne]
    simp [reconChunks]
  · push_neg at hsmall
    have hne' : ws.drop (cs - ov) ≠ [] := by
      have hl : (ws.drop (cs - ov)).length ≠ 0 := by
        simp only [List.length_drop]
        omega
      intro hcon
      rw [hcon] at hl
      simp at hl
    rw [specCands, dif_neg (by push_neg; omega)]
    simp only [reconChunks]
    rw [specCands_drop_flatten cs ov h1 h2 (ws.drop (cs - ov)) hne']
    rw [List.drop_drop]
    have hsum : cs - ov + ov = cs := by omega
    rw [hsum, List.take_append_drop]

theorem chunkLoop_eq_loopW (cs ov : Nat) :
    ∀ (rest : List String) (acc : List (List String)) (cur : List String),
      chunkLoop cs ov (acc.map joinChunk) cur rest =
        ((chunkLoopW cs ov acc cur rest).1.map joinChunk,
         (chunkLoopW cs ov acc cur rest).2) := by
  intro rest
  induction rest with
  | nil => intro acc cur; simp [chunkLoop, chunkLoopW]
  | cons w rest ih =>
    intro acc cur
    simp only [chunkLoop, chunkLoopW]
    by_cases h : cs ≤ (cur ++ [w]).length
    · rw [if_pos h, if_pos h]
      by_cases hf : interiorFloor cs ≤ (joinChunk (cur ++ [w])).length
      · rw [if_pos hf, if_pos hf]
        rw [show acc.map joinChunk ++ [joinChunk (cur ++ [w])] =
          (acc ++ [cur ++ [w]]).map joinChunk from by simp]
        exact ih (acc ++ [cur ++ [w]]) (pySliceLast (cur ++ [w]) ov)
      · rw [if_neg hf, if_neg hf]
        exact ih acc (pySliceLast (cur ++ [w]) ov)
    · rw [if_neg h, if_neg h]
      exact ih acc (cur ++ [w])

theorem split_eq_chunksWords (cs ov : Nat) (text : String) :
    split_text_into_chunks cs ov text = (chunksWords cs ov (pySplit text)).map joinChunk := by
  unfold split_text_into_chunks chunksWords
  have hW := chunkLoop_eq_loopW cs ov (pySplit text) [] []
  rw [show (([] : List (List String)).map joinChunk) = [] from rfl] at hW
  by_cases h : pySplit text = []
  · rw [if_pos h, h]
    simp only [chunkLoopW]
    simp
  · rw [if_neg h, hW]
    by_cases hcur : (chunkLoopW cs ov [] [] (pySplit text)).2 = []
    · simp [hcur]
    · by_cases hflush : 20 ≤ (joinChunk (chunkLoopW cs ov [] [] (pySplit text)).2).length
      · rw [if_pos ⟨by simp [hcur], hflush⟩, if_pos ⟨hcur, hflush⟩]
        simp
      · rw [if_neg (by intro hc; exact hflush hc.2), if_neg (by intro hc; exact hflush hc.2)]

theorem chunkLoopW_eq_candLoop (cs ov : Nat) :
    ∀ (rest : List String) (acc : List (List String)) (cur : List String),
      chunkLoopW cs ov (acc.filter (passFloor cs)) cur rest =
        ((candLoop cs ov acc cur rest).1.filter (passFloor cs),
         (candLoop cs ov acc cur rest).2) := by
  intro rest
  induction rest with
  | nil => intro acc cur; simp [chunkLoopW, candLoop]
  | cons w rest ih =>
    intro acc cur
    simp only [chunkLoopW, candLoop]
    by_cases h : cs ≤ (cur ++ [w]).length
    · rw [if_pos h, if_pos h]
      by_cases hf : interiorFloor cs ≤ (joinChunk (cur ++ [w])).length
      · rw [if_pos hf]
        rw [show acc.filter (passFloor cs) ++ [cur ++ [w]] =
          (acc ++ [cur ++ [w]]).filter (passFloor cs) from by
            rw [List.filter_append]
            simp [passFloor, hf]]
        exact ih (acc ++ [cur ++ [w]]) (pySliceLast (cur ++ [w]) ov)
      · rw [if_neg hf]
        rw [show acc.filter (passFloor cs) =
          (acc ++ [cur ++ [w]]).filter (passFloor cs) from by
            rw [List.filter_append]
            simp [passFloor, hf]]
        exact ih (acc ++ [cur ++ [w]]) (pySliceLast (cur ++ [w]) ov)
    · rw [if_neg h, if_neg h]
      exact ih acc (cur ++ [w])

theorem chunksWords_eq_filter (cs ov : Nat) (ws : List String) :
    chunksWords cs ov ws =
      (candLoop cs ov [] [] ws).1.filter (passFloor cs) ++
      (if (candLoop cs ov [] [] ws).2 ≠ [] ∧
          20 ≤ (joinChunk (candLoop cs ov [] [] ws).2).length
        then [(candLoop cs ov [] [] ws).2] else []) := by
  unfold chunksWords
  have hF := chunkLoopW_eq_candLoop cs ov ws [] []
  rw [show (([] : List (List String)).filter (passFloor cs)) = [] from rfl] at hF
  rw [hF]
  by_cases hc : (candLoop cs ov [] [] ws).2 ≠ [] ∧
      20 ≤ (joinChunk (candLoop cs ov [] [] ws).2).length
  · rw [if_pos hc, if_pos hc]
  · rw [if_neg hc, if_neg hc]
    simp

theorem chunksWords_of_allPass (cs ov : Nat) (ws : List String)
    (hall : ∀ c ∈ chunkCands cs ov ws, interiorFloor cs ≤ (joinChunk c).length) :
    chunksWords cs ov ws = chunkCands cs ov ws := by
  rw [chunksWords_eq_filter]
  unfold chunkCands at *
  by_cases hc : (candLoop cs ov [] [] ws).2 = []
  · rw [if_neg (by simp [hc])]
    rw [List.filter_eq_self.mpr ?_]
    · rw [if_pos hc] at *
      simp
    · intro c hcmem
      rw [if_pos hc] at hall
      simpa [passFloor] using hall c hcmem
  · rw [if_neg hc] at hall
    have hflush : 20 ≤ (joinChunk (candLoop cs ov [] [] ws).2).length := by
      have := hall (candLoop cs ov [] [] ws).2 (by simp)
      exact le_trans (le_max_left 20 (cs / 5)) this
    rw [if_pos ⟨hc, hflush⟩, if_neg hc]
    rw [List.filter_eq_self.mpr ?_]
    intro c hcmem
    have := hall c (by simp [hcmem])
    simpa [passFloor] using this

theorem chunkLoop_eq_spec_loop (cs ov : Nat) (hov : 1 ≤ ov) :
    ∀ (rest : List String) (chunks : List String) (cur : List String),
      chunkLoop cs ov chunks cur rest = spec_chunkLoop cs ov chunks cur rest := by
  intro rest
  induction rest with
  | nil => intro chunks cur; rfl
  | cons w rest ih =>
    intro chunks cur
    simp only [chunkLoop, spec_chunkLoop]
    by_cases h : cs ≤ (cur ++ [w]).length
    · rw [if_pos h, if_pos h]
      rw [pySliceLast_of_pos _ _ (by omega)]
      exact ih _ _
    · rw [if_neg h, if_neg h]
      exact ih _ _

theorem split_eq_spec_split (cs ov : Nat) (hov : 1 ≤ ov) (text : String) :
    split_text_into_chunks cs ov text = spec_split cs ov text := by
  unfold split_text_into_chunks spec_split
  rw [chunkLoop_eq_spec_loop cs ov hov]

theorem splitOnP_all_nil (p : Char → Bool) :
    ∀ l : List Char, (∀ c ∈ l, p c) → ∀ w ∈ l.splitOnP p, w = [] := by
  intro l
  induction l with
  | nil =>
    intro _ w hw
    rw [List.splitOnP_nil] at hw
    simpa using hw
  | cons a l ih =>
    intro h w hw
    rw [List.splitOnP_cons, if_pos (h a (by simp))] at hw
    rcases List.mem_cons.mp hw with h1 | h2
    · exact h1
    · exact ih (fun c hc => h c (by simp [hc])) w h2

theorem pySplit_eq_nil_of_whitespace (text : String)
    (h : ∀ c ∈ text.toList, c.isWhitespace) : pySplit text = [] := by
  unfold pySplit
  have hall := splitOnP_all_nil Char.isWhitespace text.toList h
  rw [List.filter_eq_nil_iff.mpr ?_]
  · rfl
  · intro w hw
    simp [hall w hw]

theorem chunkStep_consumes (cs ov : Nat) (s s' : ChunkState)
    (h : chunkStep cs ov s = some s') :
    s'.remaining.length + 1 = s.remaining.length := by
  unfold chunkStep at h
  cases hr : s.remaining with
  | nil => rw [hr] at h; exact absurd h (by simp)
  | cons w rest =>
    rw [hr] at h
    dsimp only at h
    by_cases hc : cs ≤ (s.buffer ++ [w]).length
    · rw [if_pos hc] at h
      cases h
      simp [hr]
    · rw [if_neg hc] at h
      cases h
      simp [hr]

theorem runChunk_eq_chunkLoop (cs ov : Nat) :
    ∀ (rest : List String) (cur chunks : List String),
      runChunk cs ov rest.length ⟨rest, cur, chunks⟩ =
        ⟨[], (chunkLoop cs ov chunks cur rest).2, (chunkLoop cs ov chunks cur rest).1⟩ := by
  intro rest
  induction rest with
  | nil => intro cur chunks; simp [runChunk, chunkLoop]
  | cons w rest ih =>
    intro cur chunks
    show runChunk cs ov (rest.length + 1) ⟨w :: rest, cur, chunks⟩ = _
    unfold runChunk chunkStep
    simp only
    by_cases hc : cs ≤ (cur ++ [w]).length
    · rw [if_pos hc]
      dsimp only
      rw [ih (pySliceLast (cur ++ [w]) ov)
        (if interiorFloor cs ≤ (joinChunk (cur ++ [w])).length
          then chunks ++ [joinChunk (cur ++ [w])] else chunks)]
      simp only [chunkLoop, if_pos hc]
    · rw [if_neg hc]
      dsimp only
      rw [ih (cur ++ [w]) chunks]
      simp only [chunkLoop, if_neg hc]

theorem finish_runChunk_eq_split (cs ov : Nat) (text : String)
    (hne : pySplit text ≠ []) :
    finishChunks (runChunk cs ov (pySplit text).length ⟨pySplit text, [], []⟩) =
      split_text_into_chunks cs ov text := by
  rw [runChunk_eq_chunkLoop cs ov (pySplit text) [] []]
  unfold finishChunks split_text_into_chunks
  rw [if_neg hne]

theorem add_document_ok (V : Type) (extractRes : Except String String)
    (encode : List String → List V) (cs ov : Nat) (did path : String)
    (md : Option (List (String × String))) (call : AddCall V)
    (h : add_document V extractRes encode cs ov did path md = .ok call) :
    ∃ text, extractRes = .ok text ∧
      ¬(text = "" ∨ pyStrip text = "") ∧
      split_text_into_chunks cs ov text ≠ [] ∧
      (encode (split_text_into_chunks cs ov text)).length =
        (split_text_into_chunks cs ov text).length ∧
      call = ⟨encode (split_text_into_chunks cs ov text),
              split_text_into_chunks cs ov text,
              (split_text_into_chunks cs ov text).map
                (fun _ => baseMeta md did path),
              (List.range (split_text_into_chunks cs ov text).length).map
                (fun i => did ++ "_" ++ toString i)⟩ := by
  unfold add_document at h
  cases extractRes with
  | error e => exact absurd h (by simp)
  | ok text =>
    dsimp only at h
    split_ifs at h with h1 h2 h3 h4
    push_neg at h4
    cases h
    exact ⟨text, rfl, h1, h2, h4.2, rfl⟩

theorem claim_C2_batch_consistency (V : Type) (extractRes : Except String String)
    (encode : List String → List V) (cs ov : Nat) (did path : String)
    (md : Option (List (String × String))) :
    (∀ call : AddCall V,
      add_document V extractRes encode cs ov did path md = .ok call →
        call.embeddings.length = call.documents.length ∧
        call.metadatas.length = call.documents.length ∧
        call.ids.length = call.documents.length) ∧
    (∀ text : String, extractRes = .ok text →
      (encode (split_text_into_chunks cs ov text)).length ≠
        (split_text_into_chunks cs ov text).length →
      ∃ e, add_document V extractRes encode cs ov did path md = .error e) := by
  constructor
  · intro call hcall
    obtain ⟨text, -, -, -, hlen, hc⟩ :=
      add_document_ok V extractRes encode cs ov did path md call hcall
    subst hc
    refine ⟨hlen, by simp, by simp⟩
  · intro text hex hmis
    subst hex
    unfold add_document
    dsimp only
    by_cases h1 : (text = "" ∨ pyStrip text = "")
    · rw [if_pos h1]
      exact ⟨_, rfl⟩
    · rw [if_neg h1]
      by_cases h2 : split_text_into_chunks cs ov text = []
      · rw [if_pos h2]
        exact ⟨_, rfl⟩
      · rw [if_neg h2]
        by_cases h3 : (encode (split_text_into_chunks cs ov text)).length = 0
        · rw [if_pos h3]
          exact ⟨_, rfl⟩
        · rw [if_neg h3, if_pos (Or.inr hmis)]
          exact ⟨_, rfl⟩

theorem claim_C2_batch_consistency_witness :
    ∃ e, add_document Nat
      (.ok "aaaaaaaaaaaaaaaaaaaaaaaaa bbbbbbbbbbbbbbbbbbbbbbbbb")
      (fun _ => []) 2 1 "doc" "d.pdf" none = .error e :=
  (claim_C2_batch_consistency Nat
    (.ok "aaaaaaaaaaaaaaaaaaaaaaaaa bbbbbbbbbbbbbbbbbbbbbbbbb")
    (fun _ => []) 2 1 "doc" "d.pdf" none).2
    "aaaaaaaaaaaaaaaaaaaaaaaaa bbbbbbbbbbbbbbbbbbbbbbbbb" rfl (by decide)

theorem claim_C3_ingest_atomic (V : Type) (st : Collection V) (pathExists : Bool)
    (extractRes : Except String String) (encode : List String → List V)
    (cs ov : Nat) (did path : String) (md : Option (List (String × String))) :
    (pathExists = false →
      add_pdf_document V pathExists extractRes encode cs ov did path md =
        .error ("PDF file not found: " ++ path)) ∧
    (∀ text, extractRes = .ok text → (text = "" ∨ pyStrip text = "") →
      add_document V extractRes encode cs ov did path md =
        .error "No extractable text found in PDF") ∧
    (∀ text, extractRes = .ok text → ¬(text = "" ∨ pyStrip text = "") →
      split_text_into_chunks cs ov text = [] →
      add_document V extractRes encode cs ov did path md =
        .error "No textual content to index from PDF") ∧
    (∀ text, extractRes = .ok text → ¬(text = "" ∨ pyStrip text = "") →
      split_text_into_chunks cs ov text ≠ [] →
      (encode (split_text_into_chunks cs ov text)).length = 0 →
      add_document V extractRes encode cs ov did path md =
        .error "Embedding model returned no vectors for chunks") ∧
    (∀ e, (runIngest V st pathExists extractRes encode cs ov did path md).2 = some e →
      (runIngest V st pathExists extractRes encode cs ov did path md).1 = st) := by
  refine ⟨?_, ?_, ?_, ?_, ?_⟩
  · intro hp
    unfold add_pdf_document
    rw [if_pos hp]
  · intro text hex hempty
    subst hex
    unfold add_document
    dsimp only
    rw [if_pos hempty]
  · intro text hex hne hchunks
    subst hex
    unfold add_document
    dsimp only
    rw [if_neg hne, if_pos hchunks]
  · intro text hex hne hchunks hzero
    subst hex
    unfold add_document
    dsimp only
    rw [if_neg hne, if_neg hchunks, if_pos hzero]
  · intro e he
    unfold runIngest at he ⊢
    cases hadd : add_pdf_document V pathExists extractRes encode cs ov did path md with
    | error e2 => rfl
    | ok call =>
      rw [hadd] at he
      exact absurd he (by simp)

theorem claim_C3_ingest_atomic_witness :
    add_pdf_document Nat false (.ok "x") (fun _ => []) 2 1 "doc" "p.pdf" none =
      .error ("PDF file not found: " ++ "p.pdf") ∧
    (runIngest Nat [] false (.ok "x") (fun _ => []) 2 1 "doc" "p.pdf" none).1 = [] :=
  ⟨(claim_C3_ingest_atomic Nat [] false (.ok "x") (fun _ => []) 2 1 "doc" "p.pdf" none).1 rfl,
   (claim_C3_ingest_atomic Nat [] false (.ok "x") (fun _ => []) 2 1 "doc" "p.pdf"
      none).2.2.2.2 ("PDF file not found: " ++ "p.pdf") (by decide)⟩

theorem claim_C4_counterexample :
    extract_text_from_pdf ⟨.error "parse failure", true, true, .ok "recovered text"⟩ =
      .error "parse failure" ∧
    ocrAttempted ⟨.error "parse failure", true, true, .ok "recovered text"⟩ = false :=
  ⟨rfl, rfl⟩

theorem claim_C4_ocr_fallback (env : ExtractEnv) :
    (∀ text, env.primary = .ok text → (text = "" ∨ pyStrip text = "") →
      ocrAttempted env = true) ∧
    (∀ text, env.primary = .ok text → ¬(text = "" ∨ pyStrip text = "") →
      ocrAttempted env = false ∧ extract_text_from_pdf env = .ok text) ∧
    (∀ e, env.primary = .error e →
      extract_text_from_pdf env = .error e ∧ ocrAttempted env = false) ∧
    (∀ text, env.primary = .ok text → (text = "" ∨ pyStrip text = "") →
      (env.pdf2imageAvailable = false ∨ env.pytesseractAvailable = false) →
      extract_text_from_pdf env = .ok "") := by
  have hcond : ∀ text : String, (text = "" ∨ pyStrip text = "") →
      ¬(text ≠ "" ∧ pyStrip text ≠ "") := by
    intro text hempty hc
    rcases hempty with h | h
    · exact hc.1 h
    · exact hc.2 h
  refine ⟨?_, ?_, ?_, ?_⟩
  · intro text hp hempty
    unfold ocrAttempted
    rw [hp]
    dsimp only
    rw [if_neg (hcond text hempty)]
  · intro text hp hne
    push_neg at hne
    unfold ocrAttempted extract_text_from_pdf
    rw [hp]
    dsimp only
    rw [if_pos hne, if_pos hne]
    exact ⟨rfl, rfl⟩
  · intro e hp
    unfold extract_text_from_pdf ocrAttempted
    rw [hp]
    exact ⟨rfl, rfl⟩
  · intro text hp hempty hdeps
    unfold extract_text_from_pdf
    rw [hp]
    dsimp only
    rw [if_neg (hcond text hempty)]
    by_cases h2i : env.pdf2imageAvailable = false
    · rw [if_pos h2i]
    · rw [if_neg h2i]
      rcases hdeps with hd | hd
      · exact absurd hd h2i
      · rw [if_pos hd]

theorem claim_C4_ocr_fallback_witness :
    ocrAttempted ⟨.ok "", false, true, .ok "t"⟩ = true ∧
    extract_text_from_pdf ⟨.ok "", false, true, .ok "t"⟩ = .ok "" :=
  ⟨(claim_C4_ocr_fallback ⟨.ok "", false, true, .ok "t"⟩).1 "" rfl (Or.inl rfl),
   (claim_C4_ocr_fallback ⟨.ok "", false, true, .ok "t"⟩).2.2.2 "" rfl (Or.inl rfl)
     (Or.inl rfl)⟩

theorem claim_C5_reads_degrade (D : Type)
    (query : Nat → Except String (QueryResult D)) (configK : Nat)
    (n_results : Option Nat) (countRes : Except String Nat)
    (listRes : Except String (Option (List (List (String × String))))) :
    (∀ e, query (effectiveK n_results configK) = .error e →
      search_similar_documents D query configK n_results = []) ∧
    (∀ res, query (effectiveK n_results configK) = .ok res →
      (res.documents = none ∨ res.documents = some [] ∨ res.distances = none ∨
       res.distances = some [] ∨ res.metadatas = none ∨ res.metadatas = some []) →
      search_similar_documents D query configK n_results = []) ∧
    (∀ e, countRes = .error e → get_document_count countRes = 0) ∧
    (∀ e, listRes = .error e → list_documents listRes = []) := by
  refine ⟨?_, ?_, ?_, ?_⟩
  · intro e hq
    unfold search_similar_documents processQuery
    rw [hq]
  · intro res hq hnone
    obtain ⟨docs, dists, metas⟩ := res
    unfold search_similar_documents processQuery
    rw [hq]
    dsimp only at hnone
    rcases docs with _ | ⟨_ | ⟨d0, ds⟩⟩ <;>
      rcases dists with _ | ⟨_ | ⟨e0, es⟩⟩ <;>
        rcases metas with _ | ⟨_ | ⟨m0, ms⟩⟩ <;>
          first
            | rfl
            | (exfalso
               rcases hnone with h | h | h | h | h | h <;> exact Option.noConfusion h
               )
            | skip
    all_goals
      (exfalso
       rcases hnone with h | h | h | h | h | h <;>
         first
           | exact Option.noConfusion h
           | exact List.noConfusion (Option.some.inj h))
  · intro e hc
    rw [hc]
    rfl
  · intro e hl
    rw [hl]
    rfl

theorem claim_C5_reads_degrade_witness :
    search_similar_documents Nat (fun _ => .error "down") 3 none = [] ∧
    get_document_count (.error "down") = 0 ∧
    list_documents (.error "down") = [] :=
  ⟨(claim_C5_reads_degrade Nat (fun _ => .error "down") 3 none (.error "down")
      (.error "down")).1 "down" rfl,
   (claim_C5_reads_degrade Nat (fun _ => .error "down") 3 none (.error "down")
      (.error "down")).2.2.1 "down" rfl,
   (claim_C5_reads_degrade Nat (fun _ => .error "down") 3 none (.error "down")
      (.error "down")).2.2.2 "down" rfl⟩

theorem claim_C9_termination (cs ov : Nat) (text : String) (s s' : ChunkState)
    (h : chunkStep cs ov s = some s') :
    s'.remaining.length + 1 = s.remaining.length ∧
    (runChunk cs ov (pySplit text).length ⟨pySplit text, [], []⟩).remaining = [] ∧
    (pySplit text ≠ [] →
      finishChunks (runChunk cs ov (pySplit text).length ⟨pySplit text, [], []⟩) =
        split_text_into_chunks cs ov text) := by
  refine ⟨chunkStep_consumes cs ov s s' h, ?_, ?_⟩
  · rw [runChunk_eq_chunkLoop cs ov (pySplit text) [] []]
  · intro hne
    exact finish_runChunk_eq_split cs ov text hne

theorem claim_C9_termination_witness :
    ((⟨[], ["x"], []⟩ : ChunkState).remaining.length + 1 =
      (⟨["x"], [], []⟩ : ChunkState).remaining.length) ∧
    (runChunk 2 5 (pySplit "aa bb cc").length ⟨pySplit "aa bb cc", [], []⟩).remaining = [] ∧
    (pySplit "aa bb cc" ≠ [] →
      finishChunks (runChunk 2 5 (pySplit "aa bb cc").length ⟨pySplit "aa bb cc", [], []⟩) =
        split_text_into_chunks 2 5 "aa bb cc") :=
  claim_C9_termination 2 5 "aa bb cc" ⟨["x"], [], []⟩ ⟨[], ["x"], []⟩ (by decide)

theorem claim_C1_counterexample :
    split_text_into_chunks 2 0
        "aaaaaaaaaaaaaaa bbbbbbbbbbbbbbb ccccccccccccccc ddddddddddddddd" =
      ["aaaaaaaaaaaaaaa bbbbbbbbbbbbbbb",
       "aaaaaaaaaaaaaaa bbbbbbbbbbbbbbb ccccccccccccccc",
       "aaaaaaaaaaaaaaa bbbbbbbbbbbbbbb ccccccccccccccc ddddddddddddddd",
       "aaaaaaaaaaaaaaa bbbbbbbbbbbbbbb ccccccccccccccc ddddddddddddddd"] ∧
    spec_split 2 0
        "aaaaaaaaaaaaaaa bbbbbbbbbbbbbbb ccccccccccccccc ddddddddddddddd" =
      ["aaaaaaaaaaaaaaa bbbbbbbbbbbbbbb",
       "ccccccccccccccc ddddddddddddddd"] ∧
    split_text_into_chunks 2 0
        "aaaaaaaaaaaaaaa bbbbbbbbbbbbbbb ccccccccccccccc ddddddddddddddd" ≠
      spec_split 2 0
        "aaaaaaaaaaaaaaa bbbbbbbbbbbbbbb ccccccccccccccc ddddddddddddddd" := by
  refine ⟨by decide, by decide, by decide⟩

theorem claim_C1_chunker_algorithm (cs ov : Nat) (text : String)
    (h1 : 1 ≤ ov) (h2 : ov < cs) :
    split_text_into_chunks cs ov text = spec_split cs ov text ∧
    (pySplit text ≠ [] →
      chunkCands cs ov (pySplit text) =
        (List.range (numInterior cs ov (pySplit text).length)).map
          (fun i => ((pySplit text).drop (i * (cs - ov))).take cs) ++
        [(pySplit text).drop (numInterior cs ov (pySplit text).length * (cs - ov))]) ∧
    chunksWords cs ov (pySplit text) =
      (candLoop cs ov [] [] (pySplit text)).1.filter (passFloor cs) ++
      (if (candLoop cs ov [] [] (pySplit text)).2 ≠ [] ∧
          20 ≤ (joinChunk (candLoop cs ov [] [] (pySplit text)).2).length
        then [(candLoop cs ov [] [] (pySplit text)).2] else []) ∧
    split_text_into_chunks cs ov text =
      (chunksWords cs ov (pySplit text)).map joinChunk ∧
    ((∀ c ∈ text.toList, c.isWhitespace) → split_text_into_chunks cs ov text = []) := by
  refine ⟨split_eq_spec_split cs ov h1 text, ?_,
    chunksWords_eq_filter cs ov (pySplit text), split_eq_chunksWords cs ov text, ?_⟩
  · intro hne
    rw [chunkCands_eq_specCands cs ov h1 h2 (pySplit text)]
    exact specCands_closed cs ov h1 h2 (pySplit text) hne
  · intro hws
    unfold split_text_into_chunks
    rw [if_pos (pySplit_eq_nil_of_whitespace text hws)]

theorem claim_C1_chunker_algorithm_witness :
    split_text_into_chunks 2 1 "aaaaaaaaaaaaaaa bbbbbbbbbbbbbbb ccccccccccccccc" =
      spec_split 2 1 "aaaaaaaaaaaaaaa bbbbbbbbbbbbbbb ccccccccccccccc" :=
  (claim_C1_chunker_algorithm 2 1 "aaaaaaaaaaaaaaa bbbbbbbbbbbbbbb ccccccccccccccc"
    (by decide) (by decide)).1

theorem claim_C8_counterexample :
    reconChunks 0 (chunksWords 2 0
        (pySplit "aaaaaaaaaaaaaaa bbbbbbbbbbbbbbb ccccccccccccccc ddddddddddddddd")) ≠
      pySplit "aaaaaaaaaaaaaaa bbbbbbbbbbbbbbb ccccccccccccccc ddddddddddddddd" := by
  decide

theorem claim_C8_reconstruction (cs ov : Nat) (t1 t2 : String)
    (h1 : 1 ≤ ov) (h2 : ov < cs)
    (hall : ∀ c ∈ chunkCands cs ov (pySplit t1),
      interiorFloor cs ≤ (joinChunk c).length) :
    (t1 = t2 → split_text_into_chunks cs ov t1 = split_text_into_chunks cs ov t2) ∧
    reconChunks ov (chunksWords cs ov (pySplit t1)) = pySplit t1 ∧
    split_text_into_chunks cs ov t1 = (chunksWords cs ov (pySplit t1)).map joinChunk := by
  refine ⟨fun he => by rw [he], ?_, split_eq_chunksWords cs ov t1⟩
  rw [chunksWords_of_allPass cs ov (pySplit t1) hall]
  by_cases hne : pySplit t1 = []
  · rw [hne]
    simp [chunkCands, candLoop, reconChunks]
  · rw [chunkCands_eq_specCands cs ov h1 h2 (pySplit t1)]
    exact recon_specCands cs ov h1 h2 (pySplit t1) hne

theorem claim_C8_reconstruction_witness :
    reconChunks 1 (chunksWords 2 1
        (pySplit "aaaaaaaaaaaaaaaaaaaaaaaaa bbbbbbbbbbbbbbbbbbbbbbbbb")) =
      pySplit "aaaaaaaaaaaaaaaaaaaaaaaaa bbbbbbbbbbbbbbbbbbbbbbbbb" :=
  (claim_C8_reconstruction 2 1 "aaaaaaaaaaaaaaaaaaaaaaaaa bbbbbbbbbbbbbbbbbbbbbbbbb"
    "aaaaaaaaaaaaaaaaaaaaaaaaa bbbbbbbbbbbbbbbbbbbbbbbbb"
    (by decide) (by decide) (by decide)).2.1

theorem claim_C6_counterexample :
    search_similar_documents Nat
        (fun _ => .ok ⟨some [["c"]], some [[3]], some [[some []]]⟩) 1 (some 0) =
      [("c", 3, [])] ∧
    ¬ (search_similar_documents Nat
        (fun _ => .ok ⟨some [["c"]], some [[3]], some [[some []]]⟩) 1 (some 0)).length ≤ 0 ∧
    retrieve_relevant_context Nat (fun d => toString d)
        (fun _ => .ok ⟨some [["c"]], some [[3]], some [[some []]]⟩) 1 (some 0) ≠ "" := by
  refine ⟨by decide, by decide, by decide⟩

theorem claim_C6_retrieve_format (D : Type) (fmtD : D → String)
    (query : Nat → Except String (QueryResult D)) (configK : Nat)
    (n_results : Option Nat)
    (hbound : ∀ res docs0 rest,
      query (effectiveK n_results configK) = .ok res →
      res.documents = some (docs0 :: rest) →
      docs0.length ≤ effectiveK n_results configK) :
    (search_similar_documents D query configK n_results = [] →
      retrieve_relevant_context D fmtD query configK n_results = "") ∧
    (search_similar_documents D query configK n_results ≠ [] →
      retrieve_relevant_context D fmtD query configK n_results =
        String.intercalate "\n"
          ((search_similar_documents D query configK n_results).map
            (contextBlock D fmtD)).flatten) ∧
    (search_similar_documents D query configK n_results).length ≤
      effectiveK n_results configK := by
  refine ⟨?_, ?_, ?_⟩
  · intro hempty
    unfold retrieve_relevant_context
    rw [if_pos (by simp [List.isEmpty_iff, hempty])]
  · intro hne
    unfold retrieve_relevant_context
    rw [if_neg (by simpa [List.isEmpty_iff] using hne)]
  · unfold search_similar_documents
    cases hq : query (effectiveK n_results configK) with
    | error e => simp [processQuery]
    | ok res =>
      obtain ⟨docs, dists, metas⟩ := res
      rcases docs with _ | ⟨_ | ⟨d0, ds⟩⟩
      · simp [processQuery]
      · simp [processQuery]
      · have hb := hbound ⟨some (d0 :: ds), dists, metas⟩ d0 ds hq rfl
        rcases dists with _ | ⟨_ | ⟨e0, es⟩⟩ <;>
          rcases metas with _ | ⟨_ | ⟨m0, ms⟩⟩ <;>
            simp only [processQuery, List.length_map, List.length_zip,
              List.length_nil] <;>
              omega

theorem claim_C6_retrieve_format_witness :
    retrieve_relevant_context Nat (fun d => toString d) oneHitQuery 2 none =
      String.intercalate "\n"
        ((search_similar_documents Nat oneHitQuery 2 none).map
          (contextBlock Nat (fun d => toString d))).flatten ∧
    (search_similar_documents Nat oneHitQuery 2 none).length ≤ effectiveK none 2 := by
  have hb : ∀ (res : QueryResult Nat) (docs0 : List String)
      (rest : List (List String)),
      oneHitQuery (effectiveK none 2) = .ok res →
      res.documents = some (docs0 :: rest) → docs0.length ≤ effectiveK none 2 := by
    intro res docs0 rest hq hd
    have hres : res = ⟨some [["c"]], some [[3]], some [[some [("source", "s")]]]⟩ := by
      have := hq
      simp [oneHitQuery, effectiveK] at this
      exact this.symm
    subst hres
    simp only [effectiveK]
    simp at hd
    rw [hd.1.symm]
    decide
  exact ⟨(claim_C6_retrieve_format Nat (fun d => toString d) oneHitQuery 2 none hb).2.1
      (by decide),
    (claim_C6_retrieve_format Nat (fun d => toString d) oneHitQuery 2 none hb).2.2⟩

theorem bumpDoc_ids : ∀ (acc : List DocSummary) (did src : String) (d : DocSummary),
    d ∈ bumpDoc acc did src →
    d.document_id = did ∨ d.document_id ∈ acc.map DocSummary.document_id := by
  intro acc
  induction acc with
  | nil =>
    intro did src d hd
    simp [bumpDoc] at hd
    subst hd
    exact Or.inl rfl
  | cons d0 ds ih =>
    intro did src d hd
    unfold bumpDoc at hd
    by_cases h0 : d0.document_id = did
    · rw [if_pos h0] at hd
      rcases List.mem_cons.mp hd with h | h
      · subst h
        exact Or.inl h0
      · right
        simp only [List.map_cons, List.mem_cons]
        exact Or.inr (List.mem_map_of_mem DocSummary.document_id h)
    · rw [if_neg h0] at hd
      rcases List.mem_cons.mp hd with h | h
      · subst h
        right
        simp
      · rcases ih did src d h with h1 | h1
        · exact Or.inl h1
        · right
          simp only [List.map_cons, List.mem_cons]
          exact Or.inr h1

theorem groupDocs_ids (ms : List (List (String × String))) (d : DocSummary)
    (hd : d ∈ groupDocs ms) :
    d.document_id ∈ ms.map (fun m => (metaGet m "document_id").getD "unknown") := by
  have hgen : ∀ (ms : List (List (String × String))) (acc : List DocSummary)
      (d : DocSummary),
      d ∈ ms.foldl (fun acc m =>
        bumpDoc acc ((metaGet m "document_id").getD "unknown")
          ((metaGet m "source").getD "unknown")) acc →
      d.document_id ∈ acc.map DocSummary.document_id ∨
      d.document_id ∈ ms.map (fun m => (metaGet m "document_id").getD "unknown") := by
    intro ms
    induction ms with
    | nil =>
      intro acc d hd
      exact Or.inl (List.mem_map_of_mem DocSummary.document_id hd)
    | cons m ms ih =>
      intro acc d hd
      rcases ih _ d hd with h | h
      · obtain ⟨d', hd', he⟩ := List.mem_map.mp h
        rcases bumpDoc_ids acc _ _ d' hd' with h1 | h1
        · right
          simp only [List.map_cons, List.mem_cons]
          exact Or.inl (by rw [← he, h1])
        · left
          rw [← he]
          exact h1
      · right
        simp only [List.map_cons, List.mem_cons]
        exact Or.inr h
  rcases hgen ms [] d hd with h | h
  · simp at h
  · exact h

theorem delete_document_removes (V : Type) (A : String) (st2 : Collection V) :
    ∀ r ∈ delete_document V st2 A, metaGet r.metadata "document_id" ≠ some A := by
  intro r hr hmeta
  unfold delete_document at hr
  by_cases hm : matchedIds V st2 A = []
  · rw [if_pos hm] at hr
    have hmem : r.rid ∈ matchedIds V st2 A := by
      unfold matchedIds
      exact List.mem_map_of_mem _ (List.mem_filter.mpr ⟨hr, by simp [hmeta]⟩)
    rw [hm] at hmem
    simp at hmem
  · rw [if_neg hm] at hr
    have hr2 := List.mem_filter.mp hr
    have hmem : r.rid ∈ matchedIds V st2 A := by
      unfold matchedIds
      exact List.mem_map_of_mem _ (List.mem_filter.mpr ⟨hr2.1, by simp [hmeta]⟩)
    have hnot := hr2.2
    simp at hnot
    exact hnot hmem

theorem delete_document_noop (V : Type) (A : String) (st2 : Collection V)
    (h : matchedIds V st2 A = []) : delete_document V st2 A = st2 := by
  unfold delete_document
  rw [if_pos h]

theorem recordsOfCall_metadata_all (V : Type) (call : AddCall V)
    (base : List (String × String)) (hm : ∀ m ∈ call.metadatas, m = base) :
    ∀ r ∈ recordsOfCall V call, r.metadata = base := by
  intro r hr
  unfold recordsOfCall at hr
  obtain ⟨p, hp, he⟩ := List.mem_map.mp hr
  have hp1 : (p.1, p.2) ∈ (call.ids.zip call.embeddings).zip
      (call.documents.zip call.metadatas) := by rwa [Prod.mk.eta]
  have hp2 := (List.of_mem_zip hp1).2
  have hp3 : (p.2.1, p.2.2) ∈ call.documents.zip call.metadatas := by rwa [Prod.mk.eta]
  have hp4 := (List.of_mem_zip hp3).2
  rw [← he]
  exact hm p.2.2 hp4

theorem recordsOfCall_length (V : Type) (call : AddCall V)
    (h1 : call.embeddings.length = call.documents.length)
    (h2 : call.metadatas.length = call.documents.length)
    (h3 : call.ids.length = call.documents.length) :
    (recordsOfCall V call).length = call.documents.length := by
  unfold recordsOfCall
  simp [List.length_zip, h1, h2, h3]

theorem claim_C7_counterexample :
    (runIngest Nat [] true (.ok "aaaaaaaaaaaaaaaaaaaaaaaaa")
      (fun cls => cls.map (fun _ => 0)) 2 1 "A" "p.pdf"
      (some [("source", "s")])).2 = none ∧
    collCount Nat (delete_document Nat
      (runIngest Nat [] true (.ok "aaaaaaaaaaaaaaaaaaaaaaaaa")
        (fun cls => cls.map (fun _ => 0)) 2 1 "A" "p.pdf"
        (some [("source", "s")])).1 "A") = 1 ∧
    collCount Nat ([] : Collection Nat) = 0 := by
  refine ⟨by decide, by decide, rfl⟩

theorem claim_C7_delete_restores (V : Type) (st : Collection V) (pathExists : Bool)
    (extractRes : Except String String) (encode : List String → List V)
    (cs ov : Nat) (A path : String) (md : Option (List (String × String)))
    (call : AddCall V)
    (hok : add_pdf_document V pathExists extractRes encode cs ov A path md = .ok call)
    (hmeta : metaGet (baseMeta md A path) "document_id" = some A)
    (hpre : ∀ r ∈ st, ¬ metaGet r.metadata "document_id" = some A)
    (hids : ∀ r ∈ st, ¬ r.rid ∈ (recordsOfCall V call).map ChunkRecord.rid)
    (hA : A ≠ "unknown") :
    delete_document V (collAdd V st call) A = st ∧
    collCount V (delete_document V (collAdd V st call) A) = collCount V st ∧
    ¬ A ∈ (list_documents (.ok (some ((delete_document V (collAdd V st call) A).map
        (fun r => r.metadata))))).map DocSummary.document_id ∧
    (∀ st2 : Collection V, ∀ r ∈ delete_document V st2 A,
      ¬ metaGet r.metadata "document_id" = some A) ∧
    (∀ st2 : Collection V, matchedIds V st2 A = [] → delete_document V st2 A = st2) := by
  have hok2 : add_document V extractRes encode cs ov A path md = .ok call := by
    unfold add_pdf_document at hok
    by_cases hp : pathExists = false
    · rw [if_pos hp] at hok
      exact absurd hok (by simp)
    · rwa [if_neg hp] at hok
  obtain ⟨text, hex, hemp, hch, hlen, hc⟩ :=
    add_document_ok V extractRes encode cs ov A path md call hok2
  have hmetas : ∀ m ∈ call.metadatas, m = baseMeta md A path := by
    rw [hc]
    intro m hm
    obtain ⟨a, ha, he⟩ := List.mem_map.mp hm
    exact he.symm
  have hrmeta : ∀ r ∈ recordsOfCall V call, r.metadata = baseMeta md A path :=
    recordsOfCall_metadata_all V call (baseMeta md A path) hmetas
  have hrectot : (recordsOfCall V call).length =
      (split_text_into_chunks cs ov text).length := by
    have := recordsOfCall_length V call
      (by rw [hc]; exact hlen) (by rw [hc]; simp) (by rw [hc]; simp)
    rw [this, hc]
  have hrne : recordsOfCall V call ≠ [] := by
    intro h0
    rw [h0] at hrectot
    exact hch (List.length_eq_zero.mp hrectot.symm)
  have hmatch_recs : matchedIds V (recordsOfCall V call) A =
      (recordsOfCall V call).map ChunkRecord.rid := by
    unfold matchedIds
    congr 1
    apply List.filter_eq_self.mpr
    intro r hr
    simp [hrmeta r hr, hmeta]
  have hfilter_st : st.filter
      (fun r => metaGet r.metadata "document_id" = some A) = [] :=
    List.filter_eq_nil_iff.mpr (by intro r hr; simp [hpre r hr])
  have hmatch_all : matchedIds V (collAdd V st call) A =
      (recordsOfCall V call).map ChunkRecord.rid := by
    unfold collAdd matchedIds
    rw [List.filter_append, hfilter_st, List.nil_append]
    unfold matchedIds at hmatch_recs
    exact hmatch_recs
  have hdel : delete_document V (collAdd V st call) A = st := by
    unfold delete_document
    rw [hmatch_all]
    rw [if_neg (by
      intro h0
      exact hrne (List.map_eq_nil_iff.mp h0))]
    show (st ++ recordsOfCall V call).filter _ = st
    rw [List.filter_append]
    have hst : st.filter
        (fun r => ¬ r.rid ∈ (recordsOfCall V call).map ChunkRecord.rid) = st :=
      List.filter_eq_self.mpr (by intro r hr; simp [hids r hr])
    have hrecs : (recordsOfCall V call).filter
        (fun r => ¬ r.rid ∈ (recordsOfCall V call).map ChunkRecord.rid) = [] :=
      List.filter_eq_nil_iff.mpr (by
        intro r hr
        have hmm : r.rid ∈ (recordsOfCall V call).map ChunkRecord.rid :=
          List.mem_map_of_mem ChunkRecord.rid hr
        simp [hmm])
    rw [hst, hrecs, List.append_nil]
  refine ⟨hdel, by rw [hdel], ?_, ?_, ?_⟩
  · rw [hdel]
    intro hmem
    obtain ⟨d, hd, hid⟩ := List.mem_map.mp hmem
    have hd2 : d ∈ groupDocs (st.map (fun r => r.metadata)) := hd
    have hkey := groupDocs_ids (st.map (fun r => r.metadata)) d hd2
    rw [hid] at hkey
    obtain ⟨m, hm, hkm⟩ := List.mem_map.mp hkey
    obtain ⟨r, hrs, hrm⟩ := List.mem_map.mp hm
    cases hg : metaGet m "document_id" with
    | none =>
      rw [hg] at hkm
      exact hA hkm.symm
    | some v =>
      rw [hg] at hkm
      simp at hkm
      apply hpre r hrs
      rw [hrm, hg, hkm]
  · intro st2 r hr
    exact delete_document_removes V A st2 r hr
  · intro st2 h0
    exact delete_document_noop V A st2 h0

theorem claim_C7_delete_restores_witness :
    delete_document Nat (collAdd Nat [] c7Call) "A" = [] ∧
    collCount Nat (delete_document Nat (collAdd Nat [] c7Call) "A") =
      collCount Nat [] :=
  ⟨(claim_C7_delete_restores Nat [] true (.ok "aaaaaaaaaaaaaaaaaaaaaaaaa")
      (fun cls => cls.map (fun _ => 0)) 2 1 "A" "p.pdf" none c7Call
      (by rfl) (by decide) (by simp) (by simp) (by decide)).1,
   (claim_C7_delete_restores Nat [] true (.ok "aaaaaaaaaaaaaaaaaaaaaaaaa")
      (fun cls => cls.map (fun _ => 0)) 2 1 "A" "p.pdf" none c7Call
      (by rfl) (by decide) (by simp) (by simp) (by decide)).2.1⟩

theorem claim_C10_counterexample :
    add_document Nat (.ok "aaaaaaaaaaaaaaaaaaaaaaaaa")
        (fun cls => cls.map (fun _ => 0)) 2 1 "A" "p.pdf" (some []) =
      .ok ⟨[0], ["aaaaaaaaaaaaaaaaaaaaaaaaa"],
        [[("source", "p.pdf"), ("document_id", "A")]], ["A_0"]⟩ ∧
    [[("source", "p.pdf"), ("document_id", "A")]] ≠
      ([[]] : List (List (String × String))) := by
  refine ⟨by rfl, by decide⟩

theorem claim_C10_metadata_handling (V : Type) (extractRes : Except String String)
    (encode : List String → List V) (cs ov : Nat) (did path : String) :
    (∀ (m : List (String × String)) (call : AddCall V),
      add_document V extractRes encode cs ov did path (some m) = .ok call → m ≠ [] →
      call.metadatas = call.documents.map (fun _ => m)) ∧
    (∀ (mo : Option (List (String × String))) (call : AddCall V),
      add_document V extractRes encode cs ov did path mo = .ok call →
      (mo = none ∨ mo = some []) →
      call.metadatas = call.documents.map
        (fun _ => [("source", path), ("document_id", did)])) ∧
    (∀ (m : List (String × String)) (call : AddCall V),
      add_document V extractRes encode cs ov did path (some m) = .ok call →
      m ≠ [] → metaGet m "document_id" = none →
      (∀ A, matchedIds V (recordsOfCall V call) A = []) ∧
      (∀ A, delete_document V (recordsOfCall V call) A = recordsOfCall V call) ∧
      (∀ d ∈ list_documents (.ok (some ((recordsOfCall V call).map
          (fun r => r.metadata)))), d.document_id = "unknown")) := by
  have hbase_ne : ∀ (m : List (String × String)), m ≠ [] →
      baseMeta (some m) did path = m := by
    intro m hm
    simp [baseMeta, hm]
  refine ⟨?_, ?_, ?_⟩
  · intro m call hcall hm
    obtain ⟨text, hex, hemp, hch, hlen, hc⟩ :=
      add_document_ok V extractRes encode cs ov did path (some m) call hcall
    subst hc
    dsimp only
    rw [hbase_ne m hm]
  · intro mo call hcall hmo
    obtain ⟨text, hex, hemp, hch, hlen, hc⟩ :=
      add_document_ok V extractRes encode cs ov did path mo call hcall
    subst hc
    rcases hmo with h | h <;> subst h <;> rfl
  · intro m call hcall hm hnone
    obtain ⟨text, hex, hemp, hch, hlen, hc⟩ :=
      add_document_ok V extractRes encode cs ov did path (some m) call hcall
    have hmetas : ∀ m2 ∈ call.metadatas, m2 = m := by
      rw [hc]
      intro m2 hm2
      obtain ⟨a, ha, he⟩ := List.mem_map.mp hm2
      rw [← he]
      exact hbase_ne m hm
    have hrmeta : ∀ r ∈ recordsOfCall V call, r.metadata = m :=
      recordsOfCall_metadata_all V call m hmetas
    have hmatched : ∀ A, matchedIds V (recordsOfCall V call) A = [] := by
      intro A
      unfold matchedIds
      rw [List.filter_eq_nil_iff.mpr ?_]
      · rfl
      · intro r hr
        simp [hrmeta r hr, hnone]
    refine ⟨hmatched, ?_, ?_⟩
    · intro A
      exact delete_document_noop V A (recordsOfCall V call) (hmatched A)
    · intro d hd
      have hd2 : d ∈ groupDocs ((recordsOfCall V call).map (fun r => r.metadata)) := hd
      have hkey := groupDocs_ids ((recordsOfCall V call).map (fun r => r.metadata)) d hd2
      obtain ⟨m2, hm2, hkm⟩ := List.mem_map.mp hkey
      obtain ⟨r, hrs, hrm⟩ := List.mem_map.mp hm2
      rw [← hkm, ← hrm, hrmeta r hrs, hnone]
      rfl

theorem claim_C10_metadata_handling_witness :
    c10Call.metadatas = c10Call.documents.map (fun _ => [("k", "v")]) ∧
    matchedIds Nat (recordsOfCall Nat c10Call) "A" = [] :=
  ⟨(claim_C10_metadata_handling Nat (.ok "aaaaaaaaaaaaaaaaaaaaaaaaa")
      (fun cls => cls.map (fun _ => 0)) 2 1 "A" "p.pdf").1 [("k", "v")] c10Call
      (by rfl) (by decide),
   ((claim_C10_metadata_handling Nat (.ok "aaaaaaaaaaaaaaaaaaaaaaaaa")
      (fun cls => cls.map (fun _ => 0)) 2 1 "A" "p.pdf").2.2 [("k", "v")] c10Call
      (by rfl) (by decide) (by decide)).1 "A"⟩

end RAG
